import Mathlib

/-!
Verification of the SQLite4-on-LevelDB query planner core (`src/where.c`)
against its natural-language specification.  The definitions below are a
shallow embedding of the C functions under scrutiny: 16-bit and 64-bit
machine integers are modelled as `Nat` with explicit `% 2 ^ w` wherever an
overflow is reachable, the planner's linked lists and growable arrays are
modelled as `List`s, and each C routine becomes a structurally recursive
Lean function that follows the control flow of the source line by line.
-/

namespace SQLite4Where

/-! ## Operator class and term flag constants (`where.c` lines 279-289, 433-447).
`WO_LT`/`WO_LE`/`WO_GT`/`WO_GE` are `WO_EQ << (TK_xx - TK_EQ)`; the token
ordering `TK_EQ, TK_GT, TK_LE, TK_LT, TK_GE` is fixed by the assertions at
lines 883-912 of the source. -/

def WO_IN : Nat := 0x001
def WO_EQ : Nat := 0x002
def WO_GT : Nat := 0x004
def WO_LE : Nat := 0x008
def WO_LT : Nat := 0x010
def WO_GE : Nat := 0x020
def WO_MATCH : Nat := 0x040
def WO_ISNULL : Nat := 0x080
def WO_OR : Nat := 0x100
def WO_AND : Nat := 0x200
def WO_EQUIV : Nat := 0x400
def WO_NOOP : Nat := 0x800
def WO_SINGLE : Nat := 0x0ff

def TERM_DYNAMIC : Nat := 0x01
def TERM_VIRTUAL : Nat := 0x02
def TERM_CODED : Nat := 0x04
def TERM_COPIED : Nat := 0x08
def TERM_ORINFO : Nat := 0x10
def TERM_ANDINFO : Nat := 0x20
def TERM_OR_OK : Nat := 0x40
def TERM_VNULL : Nat := 0x80

/-! ## CostArithmetic (`where.c` lines 472-491, 2030-2057).
`WhereCost` is `unsigned short int` (16 bits), so additions are reduced
`% 2 ^ 16`; `whereCostToInt` computes in a `u64`, so its shift is reduced
`% 2 ^ 64`. -/

/-- Lookup table `x[]` of `whereCostAdd` (lines 2037-2047), indexed by the
difference of the two operands (0 to 31). -/
def costAddTable : List Nat :=
  [10, 10, 9, 9, 8, 8, 7, 7, 7, 6, 6, 6, 5, 5, 5,
   4, 4, 4, 4, 3, 3, 3, 3, 3, 3, 2, 2, 2, 2, 2, 2, 2]

/-- `whereCostAdd` (lines 2036-2057): approximate sum of two logarithmic
16-bit costs. -/
def whereCostAdd (a b : Nat) : Nat :=
  if b ≤ a then
    if b + 49 < a then a
    else if b + 31 < a then (a + 1) % 2 ^ 16
    else (a + costAddTable.getD (a - b) 0) % 2 ^ 16
  else
    if a + 49 < b then b
    else if a + 31 < b then (b + 1) % 2 ^ 16
    else (b + costAddTable.getD (b - a) 0) % 2 ^ 16

/-- `whereCostToInt` (lines 475-484): convert a `WhereCost` (10 times
`log2 X`) back to the integer `X`, computed in a 64-bit unsigned. -/
def whereCostToInt (x : Nat) : Nat :=
  if x < 10 then 1
  else
    let n0 := x % 10
    let x1 := x / 10
    let n := if 5 ≤ n0 then n0 - 2 else if 1 ≤ n0 then n0 - 1 else n0
    if 3 ≤ x1 then ((n + 8) <<< (x1 - 3)) % 2 ^ 64
    else (n + 8) >>> (3 - x1)

/-- `sqlite4WhereOutputRowCount` (lines 489-491): the row estimate exposed
at the external boundary is `whereCostToInt` of the context's `nRowOut`. -/
def sqlite4WhereOutputRowCount (nRowOut : Nat) : Nat :=
  whereCostToInt nRowOut

/-! ## CursorBitmap (`where.c` lines 743-771 and 5773-5780).
`WhereMaskSet.ix` is modelled as the list of interned cursor numbers in
insertion order; `MASKBIT(i)` is `1 <<< i`. -/

/-- `getMask` (lines 749-758): bitmask for a cursor number, `0` if the
cursor is not in the set.  The C loop returns the mask of the first
matching slot. -/
def getMask (ix : List Int) (iCursor : Int) : Nat :=
  match ix.findIdx? (fun x => x == iCursor) with
  | some i => 1 <<< i
  | none => 0

/-- `createMask` (lines 768-771): unconditionally append the cursor to the
next free slot. -/
def createMask (ix : List Int) (iCursor : Int) : List Int :=
  ix ++ [iCursor]

/-- The FROM-clause width check of `sqlite4WhereBegin` (lines 5777-5780):
with more than `BMS` tables the planner fails early with a user-visible
message.  `BMS` (the bit width of `Bitmask`, defined outside `where.c`) is
passed as a parameter. -/
def whereBeginTableCheck (bms nSrc : Nat) : Except String Unit :=
  if bms < nSrc then .error s!"at most {bms} tables in a join"
  else .ok ()

/-- The cursor-interning loop of `sqlite4WhereBegin` (lines 5863-5865):
intern every FROM-clause cursor, left to right. -/
def internFromClause (cursors : List Int) : List Int :=
  cursors.foldl (fun ix c => createMask ix c) []

/-- Union of the masks of the FROM entries strictly to the left of
position `i` (the `toTheLeft` accumulator of lines 5866-5874). -/
def leftMaskUnion (ix : List Int) (cursors : List Int) (i : Nat) : Nat :=
  (cursors.take i).foldl (fun m c => m ||| getMask ix c) 0

/-! ## CandidatePool insertion (`whereLoopInsert`, `where.c` lines 4204-4326).
A `WhereLoop` is reduced to the fields the insertion procedure reads; the
pool `pWInfo->pLoops` is the linked list in order. -/

/-- The fields of a `WhereLoop` consulted by `whereLoopInsert`:
FROM position, ORDER-BY index tag, dependency mask, setup and run cost,
number of `aLTerm` entries, the `WHERE_INDEXED` flag and (when indexed)
the identity of `u.btree.pIndex`. -/
structure WLoop where
  iTab : Nat
  iSortIdx : Nat
  prereq : Nat
  rSetup : Nat
  rRun : Nat
  nLTerm : Nat
  indexed : Bool
  idx : Nat
  deriving Repr, DecidableEq, Inhabited

/-- Weak dominance (conditions (1)-(4) of the comment at lines 4197-4200;
the test at lines 4235 and 4252-4254, and symmetrically 4275-4277):
`E` dominates `C` when both have the same `iTab` and `iSortIdx`,
`E.prereq ⊆ C.prereq`, `E.rSetup ≤ C.rSetup` and `E.rRun ≤ C.rRun`. -/
def wlDominates (e c : WLoop) : Prop :=
  e.iTab = c.iTab ∧ e.iSortIdx = c.iSortIdx ∧
  e.prereq &&& c.prereq = e.prereq ∧ e.rSetup ≤ c.rSetup ∧ e.rRun ≤ c.rRun

instance (e c : WLoop) : Decidable (wlDominates e c) := by
  unfold wlDominates; infer_instance

/-- The longer-prefix exception (lines 4259-4264): an existing loop `p`
that dominates the template is nevertheless overwritten when the template
uses more terms of the same index and has identical prereqs. -/
def wlLongerPrefix (p t : WLoop) : Prop :=
  p.nLTerm < t.nLTerm ∧ p.indexed = true ∧ t.indexed = true ∧
  p.idx = t.idx ∧ p.prereq = t.prereq

instance (p t : WLoop) : Decidable (wlLongerPrefix p t) := by
  unfold wlLongerPrefix; infer_instance

/-- `whereLoopInsert` (lines 4234-4315), in the accumulating mode
(`pBuilder->pOrSet == 0`): walk the pool in order; at the first loop `p`
with matching `iTab`/`iSortIdx` where either `p` dominates the template
(lines 4252-4274) or the template dominates `p` (lines 4275-4284), either
return the pool unchanged (the `whereLoopInsert_noop` exit) or overwrite
`p` in place; if the walk falls off the end, append the template. -/
def whereLoopInsert : List WLoop → WLoop → List WLoop
  | [], t => [t]
  | p :: rest, t =>
    if wlDominates p t then
      if wlLongerPrefix p t then t :: rest else p :: rest
    else if wlDominates t p then
      t :: rest
    else
      p :: whereLoopInsert rest t

/-! ## Join-order solver bookkeeping (`wherePathSolver`, lines 5334-5510).
Only the per-generation retention logic named by the spec is modelled: the
`aTo[]` array of at most `mxChoice` partial paths, the running `mxCost`,
and the merge of one freshly produced path (lines 5432-5510). -/

/-- The fields of a `WherePath` read by the merge logic. -/
structure SPath where
  maskLoop : Nat
  isOrderedValid : Bool
  isOrdered : Bool
  rCost : Nat
  nRow : Nat
  deriving Repr, DecidableEq, Inhabited

/-- `mxChoice` (line 5359): number of simultaneous paths tracked. -/
def mxChoice (nLoop : Nat) : Nat :=
  if nLoop = 1 then 1 else if nLoop = 2 then 5 else 10

/-- Maximum retained cost, recomputed at lines 5505-5510 after every
insertion once the set is full. -/
def pathMaxCost (aTo : List SPath) : Nat :=
  aTo.foldl (fun m p => max m p.rCost) 0

/-- The displacement scan of line 5456: starting from the last slot, step
backwards past entries cheaper than `mxCost`; the slot reached (the last
entry whose cost is at least `mxCost`) is overwritten.  The C loop
asserts that such a slot exists; `0` is returned if none does. -/
def pathDispIdx (aTo : List SPath) (mxCost : Nat) : Nat :=
  match aTo.reverse.findIdx? (fun p => mxCost ≤ p.rCost) with
  | some k => aTo.length - 1 - k
  | none => 0

/-- One merge of a candidate extended path `t` into the current generation
(lines 5432-5510).  The state is the pair `(aTo, mxCost)`.  A slot
matches `t` when it has the same `maskLoop` and the same `isOrderedValid`
flag (line 5434).  On a match, `t` wins iff its cost is strictly lower
(line 5467).  Without a match, `t` is appended while fewer than
`mxChoice` paths are retained, is dropped when the set is full and
`rCost ≥ mxCost` (line 5440), and otherwise displaces the slot found by
`pathDispIdx`. -/
def solverMerge (mxc : Nat) (st : List SPath × Nat) (t : SPath) :
    List SPath × Nat :=
  let aTo := st.1
  let mxCost := st.2
  let recost : List SPath → List SPath × Nat := fun l =>
    (l, if mxc ≤ l.length then pathMaxCost l else mxCost)
  match aTo.findIdx?
      (fun p => p.maskLoop == t.maskLoop && p.isOrderedValid == t.isOrderedValid) with
  | some jj =>
    if (aTo.getD jj default).rCost ≤ t.rCost then (aTo, mxCost)
    else recost (aTo.set jj t)
  | none =>
    if mxc ≤ aTo.length then
      if mxCost ≤ t.rCost then (aTo, mxCost)
      else recost (aTo.set (pathDispIdx aTo mxCost) t)
    else recost (aTo ++ [t])

/-! ## Transitive-equality scan (`whereScanNext`, lines 921-990, and
`whereScanInit`, lines 1068-1099).
A WHERE term is reduced to the fields the scanner reads: the LHS cursor
and column, the operator mask, the RHS when it is a column reference
(read at lines 939 and 971), and one boolean summarising the affinity
and collation checks of lines 955-968 (which call into the catalog).
The chained outer clauses (`pWC->pOuter`, line 982) are modelled by
concatenating their term arrays, which the scan traverses in the same
order with the same state. -/

structure ScanTerm where
  leftCursor : Int
  leftColumn : Int
  eOp : Nat
  rhsColumn : Option (Int × Int)
  collOk : Bool
  deriving Repr, DecidableEq, Inhabited

/-- The equivalence-collection step of lines 935-952: when the visited
term has the current pair on its LHS and carries `WO_EQUIV`, and fewer
than 11 pairs (22 `int` slots, `aEquiv[22]`) are recorded, append its RHS
pair unless already present. -/
def scanAddEquiv (cur : Int × Int) (acc : List (Int × Int)) (t : ScanTerm) :
    List (Int × Int) :=
  if t.leftCursor == cur.1 && t.leftColumn == cur.2 &&
     t.eOp &&& WO_EQUIV != 0 && decide (acc.length < 11) then
    match t.rhsColumn with
    | some q => if q ∈ acc then acc else acc ++ [q]
    | none => acc
  else acc

/-- The return test of lines 953-978: the operator must intersect
`opMask`; when a collation is required (`pScan->zCollName`, set by
`whereScanInit` from the probed index) and the term is not `IS NULL`, the
affinity and collation checks must pass; and an equality whose RHS is the
original starting pair `aEquiv[0..1]` is skipped. -/
def scanReturns (opMask : Nat) (needColl : Bool) (start : Int × Int)
    (cur : Int × Int) (t : ScanTerm) : Bool :=
  t.leftCursor == cur.1 && t.leftColumn == cur.2 &&
  t.eOp &&& opMask != 0 &&
  !(needColl && t.eOp &&& WO_ISNULL == 0 && !t.collOk) &&
  !(t.eOp &&& WO_EQ != 0 && t.rhsColumn == some start)

/-- Process every term once for the current pair (the `k` loop of lines
933-981; across a full drain of the iterator, each term is visited exactly
once per pair because the scan resumes at `pScan->k`).  Returns the grown
`aEquiv` list and the terms returned while on this pair, in order. -/
def scanStep (opMask : Nat) (needColl : Bool) (start cur : Int × Int)
    (st : List (Int × Int) × List ScanTerm) (t : ScanTerm) :
    List (Int × Int) × List ScanTerm :=
  let acc1 := scanAddEquiv cur st.1 t
  if scanReturns opMask needColl start cur t then (acc1, st.2 ++ [t])
  else (acc1, st.2)

def scanOnePair (opMask : Nat) (needColl : Bool) (start cur : Int × Int)
    (terms : List ScanTerm) (acc0 : List (Int × Int)) :
    List (Int × Int) × List ScanTerm :=
  terms.foldl (scanStep opMask needColl start cur) (acc0, [])

/-- The outer `iEquiv` loop of lines 929-988: process the recorded pairs
in order until the cursor `i` runs past the end of `aEquiv`.  `fuel`
bounds the recursion; 11 suffices since at most 11 pairs ever exist. -/
def scanDrain (opMask : Nat) (needColl : Bool) (start : Int × Int)
    (terms : List ScanTerm) :
    Nat → List (Int × Int) → Nat → List (Int × Int) × List ScanTerm
  | 0, acc, _ => (acc, [])
  | fuel + 1, acc, i =>
    match acc.get? i with
    | none => (acc, [])
    | some cur =>
      let step := scanOnePair opMask needColl start cur terms acc
      let rest := scanDrain opMask needColl start terms fuel step.1 (i + 1)
      (rest.1, step.2 ++ rest.2)

/-- `whereScanInit` (lines 1092-1098) followed by a full drain of
`whereScanNext`: `aEquiv` starts as the single starting pair and the scan
begins on it. -/
def whereScanAll (opMask : Nat) (needColl : Bool) (start : Int × Int)
    (terms : List ScanTerm) : List (Int × Int) × List ScanTerm :=
  scanDrain opMask needColl start terms 11 [start] 0

/-- One `Equiv` equality step usable by the scanner: a term of the clause
whose operator carries `WO_EQUIV`, whose LHS is `p` and whose RHS is the
column pair `q`. -/
def equivStep (terms : List ScanTerm) (p q : Int × Int) : Prop :=
  ∃ t ∈ terms, t.eOp &&& WO_EQUIV ≠ 0 ∧ t.leftCursor = p.1 ∧
    t.leftColumn = p.2 ∧ t.rhsColumn = some q

/-- `q` is reachable from `p` by a chain of at most `n` `Equiv` steps. -/
def reachWithin (terms : List ScanTerm) : Nat → (Int × Int) → (Int × Int) → Prop
  | 0, p, q => q = p
  | n + 1, p, q => reachWithin terms n p q ∨
      ∃ r, reachWithin terms n p r ∧ equivStep terms r q

/-! ## Range estimate without samples (`whereRangeScanEst`, lines
2750-2760, and the `nOut` adjustment of `whereLoopAddBtreeIndex`,
line 4465). -/

/-- The endpoint fields read by the sample-free branch. -/
structure RangeTerm where
  wtFlags : Nat
  eOp : Nat
  deriving Repr, DecidableEq, Inhabited

/-- `whereRangeScanEst`, sample-free branch (lines 2751-2759): 20
deci-bels per endpoint, except that a lower bound flagged `TERM_VNULL`
contributes nothing. -/
def whereRangeScanEstNoSamples (pLower pUpper : Option RangeTerm) : Nat :=
  (match pLower with
   | some l => if l.wtFlags &&& TERM_VNULL == 0 then 20 else 0
   | none => 0) +
  (match pUpper with
   | some _ => 20
   | none => 0)

/-- Line 4465: `pNew->nOut = saved_nOut>rDiv+10 ? saved_nOut - rDiv : 10`. -/
def rangeAdjustOut (savedOut rDiv : Nat) : Nat :=
  if rDiv + 10 < savedOut then savedOut - rDiv else 10

/-! ## OR-term specialisation (`exprAnalyzeOrTerm`, lines 1380-1610).
A sub-term of the OR clause is reduced to the fields the routine reads.
For a non-`WO_SINGLE` sub-term the routine splits it into an AND
sub-clause and unions the masks of its indexable conjuncts (lines
1424-1447); that union is carried here as the precomputed field
`andIndexableMask`, since the claims never reach inside the nested
store. -/

structure OrSub where
  eOp : Nat
  leftCursor : Int
  leftColumn : Int
  wtFlags : Nat
  iParent : Nat
  affLeft : Nat
  affRight : Nat
  rhsId : Nat
  andIndexableMask : Nat
  deriving Repr, DecidableEq, Inhabited

/-- All 64 bits set: `~(Bitmask)0` (lines 1417-1418). -/
def allBits : Nat := 2 ^ 64 - 1

/-- One iteration of the classification loop (lines 1419-1466). -/
def orPrescanStep (maskOf : Int → Nat) (all : List OrSub)
    (st : Nat × Nat) (t : OrSub) : Nat × Nat :=
  let indexable := st.1
  let chngToIN := st.2
  if t.eOp &&& WO_SINGLE == 0 then
    (indexable &&& t.andIndexableMask, 0)
  else if t.wtFlags &&& TERM_COPIED != 0 then
    (indexable, chngToIN)
  else
    let b0 := maskOf t.leftCursor
    let b := if t.wtFlags &&& TERM_VIRTUAL != 0 then
               b0 ||| maskOf ((all.getD t.iParent default).leftCursor)
             else b0
    if t.eOp &&& WO_EQ == 0 then (indexable &&& b, 0)
    else (indexable &&& b, chngToIN &&& b)

/-- The classification loop (lines 1419-1466), which exits early as soon
as `indexable` drops to zero (loop condition `i>=0 && indexable`). -/
def orPrescan (maskOf : Int → Nat) (all : List OrSub) :
    List OrSub → Nat × Nat → Nat × Nat
  | [], st => st
  | t :: rest, st =>
    if st.1 == 0 then st
    else orPrescan maskOf all rest (orPrescanStep maskOf all st t)

/-- The candidate search of lines 1508-1532 for one `j` iteration: clear
`TERM_OR_OK` on each visited term, skip terms whose LHS cursor equals the
previous candidate cursor or whose mask lies outside `chngToIN`, and stop
at the first remaining term.  Returns the index of the candidate and the
flag list with the cleared bits. -/
def orFindCandidate (maskOf : Int → Nat) (chngToIN : Nat) (iCursor : Int) :
    List OrSub → List Bool → Nat → Option (Nat × List Bool) × List Bool
  | [], flags, _ => (none, flags)
  | t :: rest, flags, k =>
    let flags1 := flags.set k false
    if t.leftCursor == iCursor then
      orFindCandidate maskOf chngToIN iCursor rest flags1 (k + 1)
    else if maskOf t.leftCursor &&& chngToIN == 0 then
      orFindCandidate maskOf chngToIN iCursor rest flags1 (k + 1)
    else
      (some (k, flags1), flags1)

/-- The verification loop of lines 1546-1566, starting at the candidate
itself: terms on another cursor get `TERM_OR_OK` cleared; a term on the
candidate cursor but another column, or with an incompatible affinity,
aborts; otherwise `TERM_OR_OK` is set.  Returns the surviving flag and
the updated flag list. -/
def orVerify (iCursor : Int) (iColumn : Int) :
    List OrSub → List Bool → Nat → Bool × List Bool
  | [], flags, _ => (true, flags)
  | t :: rest, flags, k =>
    if t.leftCursor != iCursor then
      orVerify iCursor iColumn rest (flags.set k false) (k + 1)
    else if t.leftColumn != iColumn then
      (false, flags)
    else if t.affRight != 0 && t.affRight != t.affLeft then
      (false, flags)
    else
      orVerify iCursor iColumn rest (flags.set k true) (k + 1)

/-- Result of one `j` attempt: on success, the candidate cursor, column
and flag list. -/
def orAttempt (maskOf : Int → Nat) (chngToIN : Nat) (ts : List OrSub)
    (iCursor : Int) (flags : List Bool) :
    Option (Int × Int × Bool × List Bool) :=
  match orFindCandidate maskOf chngToIN iCursor ts flags 0 with
  | (none, _) => none
  | (some (k, flags1), _) =>
    let cand := ts.getD k default
    let v := orVerify cand.leftCursor cand.leftColumn (ts.drop k) flags1 k
    some (cand.leftCursor, cand.leftColumn, v.1, v.2)

/-- The `j < 2` search of lines 1508-1567: a first attempt starting from
`iCursor = -1`, and on failure a second attempt that skips the first
candidate's cursor.  Returns the common cursor and column and the
`TERM_OR_OK` flags when the conversion is valid. -/
def orSearch (maskOf : Int → Nat) (chngToIN : Nat) (ts : List OrSub) :
    Option (Int × Int × List Bool) :=
  let flags0 := ts.map (fun t => t.wtFlags &&& TERM_OR_OK != 0)
  match orAttempt maskOf chngToIN ts (-1) flags0 with
  | none => none
  | some (cur, col, ok, flags1) =>
    if ok then some (cur, col, flags1)
    else
      match orAttempt maskOf chngToIN ts cur flags1 with
      | none => none
      | some (cur2, col2, ok2, flags2) =>
        if ok2 then some (cur2, col2, flags2) else none

/-- The synthesised `IN` term of lines 1575-1607. -/
structure InTermRec where
  lhsCursor : Int
  lhsColumn : Int
  rhsIds : List Nat
  wtFlags : Nat
  eOp : Nat
  iParent : Nat
  deriving Repr, DecidableEq

/-- Outcome of `exprAnalyzeOrTerm` for the original OR term and (when
case 1 fires) the new virtual term inserted into the outer clause. -/
structure OrAnalysis where
  indexable : Nat
  origOp : Nat
  origNChild : Nat
  inTerm : Option InTermRec
  deriving Repr, DecidableEq

/-- `exprAnalyzeOrTerm` (lines 1380-1610) after the sub-term split:
classify the sub-terms (lines 1417-1473), then attempt the OR-to-IN
conversion (lines 1496-1608).  On success the RHS expressions of the
`TERM_OR_OK` sub-terms are collected in array order (lines 1581-1589),
the new term is inserted with `TERM_VIRTUAL|TERM_DYNAMIC` and analysed
(which classifies it as `WO_IN` on the common column), its parent is the
original term whose child count becomes 1, and the original term's
operator is demoted to `WO_NOOP` (case 1 trumps case 2, line 1607). -/
def exprAnalyzeOrTermModel (maskOf : Int → Nat) (idxTerm : Nat)
    (ts : List OrSub) : OrAnalysis :=
  let pre := orPrescan maskOf ts ts (allBits, allBits)
  let indexable := pre.1
  let chngToIN := pre.2
  let op0 := if indexable == 0 then 0 else WO_OR
  if chngToIN != 0 then
    match orSearch maskOf chngToIN ts with
    | some (cur, col, flags) =>
      let rhs := (ts.zip flags).filterMap
        (fun p => if p.2 then some p.1.rhsId else none)
      { indexable := indexable
        origOp := WO_NOOP
        origNChild := 1
        inTerm := some
          { lhsCursor := cur, lhsColumn := col, rhsIds := rhs
            wtFlags := TERM_VIRTUAL ||| TERM_DYNAMIC
            eOp := WO_IN, iParent := idxTerm } }
    | none =>
      { indexable := indexable, origOp := op0, origNChild := 0, inTerm := none }
  else
    { indexable := indexable, origOp := op0, origNChild := 0, inTerm := none }

/-! ## LIKE/GLOB prefix rewrite (`isLikeOrGlob`, lines 1174-1260, and the
rewrite of `exprAnalyze`, lines 1791-1842).
Pattern strings are byte lists (the bytes before the terminating NUL, so
every listed byte is nonzero).  The catalog-side tests of lines
1191-1206 (`sqlite4IsLikeFunction`, column affinity, virtual-table
check) are carried as booleans on the input record. -/

structure LikeInput where
  isLikeFn : Bool
  noCase : Bool
  wc0 : Nat
  wc1 : Nat
  wc2 : Nat
  lhsIsColumn : Bool
  lhsTextAffinity : Bool
  lhsTableVirtual : Bool
  rhsBytes : Option (List Nat)
  deriving Repr, DecidableEq

/-- The prefix length `cnt` (lines 1227-1230): number of leading bytes
before the NUL or the first wildcard. -/
def likePrefixLen (wc0 wc1 wc2 : Nat) (z : List Nat) : Nat :=
  (z.takeWhile (fun c => !(c == 0 || c == wc0 || c == wc1 || c == wc2))).length

/-- `isLikeOrGlob` (lines 1174-1260): on success, the non-empty prefix
(whose last byte is not 255, line 1231) and `isComplete` (the only
wildcard is `wc[0]` in the last position, line 1233). -/
def isLikeOrGlobModel (inp : LikeInput) : Option (List Nat × Bool) :=
  if !inp.isLikeFn then none
  else if !(inp.lhsIsColumn && inp.lhsTextAffinity && !inp.lhsTableVirtual) then
    none
  else
    match inp.rhsBytes with
    | none => none
    | some z =>
      let cnt := likePrefixLen inp.wc0 inp.wc1 inp.wc2 z
      if cnt != 0 && z.getD (cnt - 1) 0 != 255 then
        some (z.take cnt,
              z.getD cnt 0 == inp.wc0 && decide (cnt + 1 = z.length))
      else none

/-- Modelled from the spec: the `NOCASE` collation compares text
case-insensitively over ASCII, so its folding maps the bytes `A`-`Z` to
`a`-`z` and fixes every other byte.  The `sqlite4UpperToLower[]` table
that implements it lives outside `src/where.c`. -/
def upperToLower (c : Nat) : Nat :=
  if 65 ≤ c ∧ c ≤ 90 then c + 32 else c

/-- One virtual comparison term produced by the rewrite. -/
structure LikeBound where
  isGE : Bool
  bound : List Nat
  coll : String
  wtFlags : Nat
  deriving Repr, DecidableEq

/-- The LIKE rewrite of `exprAnalyze` (lines 1791-1842): when
`isLikeOrGlob` accepts, derive the upper bound by replacing the last
prefix byte `c` with `c + 1` — after folding `c` to lowercase when
`noCase` (line 1818), and force-clearing `isComplete` when `c` is `'@'`
(line 1815) — and append two `TERM_VIRTUAL|TERM_DYNAMIC` terms
`x >= prefix` and `x < succ` with the `NOCASE` or `BINARY` collation.
The returned boolean is the final `isComplete` (which at lines 1837-1841
makes the two bounds children of the LIKE term). -/
def likeRewrite (inp : LikeInput) : Option (LikeBound × LikeBound × Bool) :=
  match isLikeOrGlobModel inp with
  | none => none
  | some (pre, isComplete) =>
    let c := pre.getLastD 0
    let isComplete2 := if inp.noCase && c == 64 then false else isComplete
    let c2 := if inp.noCase then upperToLower c else c
    let succ := pre.dropLast ++ [(c2 + 1) % 256]
    let coll := if inp.noCase then "NOCASE" else "BINARY"
    some (⟨true, pre, coll, TERM_VIRTUAL ||| TERM_DYNAMIC⟩,
          ⟨false, succ, coll, TERM_VIRTUAL ||| TERM_DYNAMIC⟩,
          isComplete2)

/-! ## Helper lemmas -/

theorem costAddTable_getD_bounds :
    ∀ d, d ≤ 31 → 2 ≤ costAddTable.getD d 0 ∧ costAddTable.getD d 0 ≤ 10 := by
  decide

theorem whereCostAdd_le_bounds (a b : Nat) (h : b ≤ a) (ha : a ≤ 6900) :
    a ≤ whereCostAdd a b ∧ whereCostAdd a b ≤ a + 10 := by
  unfold whereCostAdd
  rw [if_pos h]
  by_cases h1 : b + 49 < a
  · rw [if_pos h1]; omega
  · rw [if_neg h1]
    by_cases h2 : b + 31 < a
    · rw [if_pos h2, Nat.mod_eq_of_lt (by omega : a + 1 < 2 ^ 16)]; omega
    · rw [if_neg h2]
      have hb := costAddTable_getD_bounds (a - b) (by omega)
      rw [Nat.mod_eq_of_lt (by omega : a + costAddTable.getD (a - b) 0 < 2 ^ 16)]
      omega

theorem whereCostAdd_comm (a b : Nat) : whereCostAdd a b = whereCostAdd b a := by
  unfold whereCostAdd
  rcases Nat.lt_trichotomy a b with h | h | h
  · rw [if_neg (show ¬ b ≤ a by omega), if_pos (show a ≤ b by omega)]
  · subst h; rfl
  · rw [if_pos (show b ≤ a by omega), if_neg (show ¬ a ≤ b by omega)]

/-! ## Claim theorems -/

/-- C3: for all 16-bit log-space costs `a, b ≤ 6900`, `whereCostAdd` is
symmetric and tightly bounded: `whereCostAdd a b = whereCostAdd b a` and
`max a b ≤ whereCostAdd a b ≤ max a b + 10`. -/
theorem claim_C3_cost_add_symmetric_bounded (a b : Nat)
    (ha : a ≤ 6900) (hb : b ≤ 6900) :
    whereCostAdd a b = whereCostAdd b a ∧
    max a b ≤ whereCostAdd a b ∧ whereCostAdd a b ≤ max a b + 10 := by
  refine ⟨whereCostAdd_comm a b, ?_⟩
  rcases Nat.le_total b a with h | h
  · have := whereCostAdd_le_bounds a b h ha
    rw [Nat.max_eq_left h]
    exact this
  · have := whereCostAdd_le_bounds b a h hb
    rw [Nat.max_eq_right h, whereCostAdd_comm a b]
    exact this

/-- Witness for C3 at the concrete costs 33 and 17. -/
theorem claim_C3_witness :
    whereCostAdd 33 17 = whereCostAdd 17 33 ∧
    max 33 17 ≤ whereCostAdd 33 17 ∧ whereCostAdd 33 17 ≤ max 33 17 + 10 :=
  claim_C3_cost_add_symmetric_bounded 33 17 (by decide) (by decide)

/-- C10, counterexample: at the 16-bit cost value 640 the conversion
computes `8 <<< 61` in a 64-bit unsigned, which wraps to 0, so the
reported row count is 0, not at least 1 as claimed. -/
theorem claim_C10_counterexample :
    sqlite4WhereOutputRowCount 640 = 0 ∧
    ¬ 1 ≤ sqlite4WhereOutputRowCount 640 := by
  constructor
  · decide
  · decide

set_option maxRecDepth 20000 in
/-- C10, amended: for every log-space cost value below 640 (where the
64-bit shift cannot wrap), the cost-to-integer conversion returns at
least 1, and every value below 10 maps to exactly 1. -/
theorem claim_C10_output_rows_positive :
    ∀ x, x < 640 → 1 ≤ sqlite4WhereOutputRowCount x ∧
      (x < 10 → sqlite4WhereOutputRowCount x = 1) := by
  decide

/-- Witness for C10 at the concrete cost 46. -/
theorem claim_C10_witness :
    1 ≤ sqlite4WhereOutputRowCount 46 ∧
    (46 < 10 → sqlite4WhereOutputRowCount 46 = 1) :=
  claim_C10_output_rows_positive 46 (by decide)

/-- C9, counterexample: a lower bound flagged `TERM_VNULL` (the
synthesised `x > NULL` term) together with an ordinary upper bound yields
a reduction of 20, not the claimed 40 (16-fold): the `TERM_VNULL` lower
endpoint contributes nothing. -/
theorem claim_C9_counterexample :
    whereRangeScanEstNoSamples (some ⟨TERM_VNULL, WO_GT⟩) (some ⟨0, WO_LT⟩)
      = 20 ∧ (20 : Nat) ≠ 40 := by
  constructor
  · decide
  · decide

/-- C9, amended: in the sample-free branch, every supplied endpoint
contributes 20 deci-bels (a factor of 4) — except a lower bound flagged
`TERM_VNULL`, which contributes nothing — so a range whose lower bound is
not `TERM_VNULL` and which has both endpoints reduces the log-space row
estimate by 40 (a 16-fold cut), as the adjustment at line 4465 shows. -/
theorem claim_C9_range_selectivity :
    (∀ l u : RangeTerm, l.wtFlags &&& TERM_VNULL = 0 →
      whereRangeScanEstNoSamples (some l) (some u) = 40 ∧
      whereRangeScanEstNoSamples (some l) none = 20 ∧
      whereRangeScanEstNoSamples none (some u) = 20 ∧
      whereRangeScanEstNoSamples none none = 0) ∧
    (∀ (l : RangeTerm) (u : Option RangeTerm), l.wtFlags &&& TERM_VNULL ≠ 0 →
      whereRangeScanEstNoSamples (some l) u = whereRangeScanEstNoSamples none u) ∧
    (∀ (savedOut : Nat) (l u : RangeTerm), l.wtFlags &&& TERM_VNULL = 0 →
      50 < savedOut →
      rangeAdjustOut savedOut (whereRangeScanEstNoSamples (some l) (some u)) =
        savedOut - 40) := by
  refine ⟨?_, ?_, ?_⟩
  · intro l u h
    simp [whereRangeScanEstNoSamples, h]
  · intro l u h
    simp [whereRangeScanEstNoSamples, h]
  · intro savedOut l u h hs
    simp only [whereRangeScanEstNoSamples, h]
    simp [rangeAdjustOut]
    omega

/-- Witness for C9 at concrete endpoint terms. -/
theorem claim_C9_witness :
    whereRangeScanEstNoSamples (some ⟨0, WO_GE⟩) (some ⟨0, WO_LE⟩) = 40 ∧
    rangeAdjustOut 99 (whereRangeScanEstNoSamples (some ⟨0, WO_GE⟩) (some ⟨0, WO_LE⟩)) = 59 :=
  ⟨(claim_C9_range_selectivity.1 ⟨0, WO_GE⟩ ⟨0, WO_LE⟩ (by decide)).1,
   claim_C9_range_selectivity.2.2 99 ⟨0, WO_GE⟩ ⟨0, WO_LE⟩ (by decide) (by decide)⟩

/-- C7, counterexample: interning the same cursor a second time does
consume an additional slot — `createMask` appends unconditionally, so the
set grows from one entry to two, contrary to the claim that no additional
bit is consumed (only the `getMask` lookups are unaffected). -/
theorem claim_C7_counterexample :
    (createMask (createMask [] 5) 5).length = 2 ∧ (2 : Nat) ≠ 1 := by
  constructor
  · decide
  · decide

/-- C7, amended: interning an already-interned cursor leaves every
`getMask` lookup unchanged (the first-interned slot wins) but still
consumes one more slot of the fixed-capacity set; and `sqlite4WhereBegin`
fails early with the user-visible message "at most BMS tables in a join"
exactly when the FROM clause has more than `BMS` entries. -/
theorem claim_C7_intern_and_width_check :
    (∀ (ix : List Int) (c x : Int), c ∈ ix →
      getMask (createMask ix c) x = getMask ix x) ∧
    (∀ (ix : List Int) (c : Int), (createMask ix c).length = ix.length + 1) ∧
    (∀ bms nSrc, whereBeginTableCheck bms nSrc = .ok () ↔ nSrc ≤ bms) ∧
    (∀ bms nSrc, bms < nSrc →
      whereBeginTableCheck bms nSrc = .error s!"at most {bms} tables in a join") := by
  refine ⟨?_, ?_, ?_, ?_⟩
  · intro ix c x hc
    unfold getMask createMask
    rw [List.findIdx?_append]
    match h : ix.findIdx? (fun y => y == x) with
    | some i => rfl
    | none =>
      rw [List.findIdx?_eq_none_iff] at h
      have hcx : ¬ (c == x) = true := by
        intro hcx
        have := h c hc
        simp at this hcx
        exact this (by omega)
      simp [List.findIdx?_cons, hcx]
  · intro ix c
    simp [createMask]
  · intro bms nSrc
    unfold whereBeginTableCheck
    split
    · simp; omega
    · simp; omega
  · intro bms nSrc h
    unfold whereBeginTableCheck
    rw [if_pos h]

/-- Witness for C7 with cursor 5 already interned. -/
theorem claim_C7_witness :
    getMask (createMask [5] 5) 7 = getMask [5] 7 :=
  claim_C7_intern_and_width_check.1 [5] 5 7 (by decide)

theorem internFromClause_eq (l : List Int) : internFromClause l = l := by
  unfold internFromClause createMask
  have h : ∀ acc : List Int,
      l.foldl (fun ix c => ix ++ [c]) acc = acc ++ l := by
    induction l with
    | nil => intro acc; simp
    | cons a tl ih =>
      intro acc
      simp only [List.foldl_cons, ih, List.append_assoc, List.singleton_append]
  simpa using h []

theorem getMask_get_of_nodup (l : List Int) (h : l.Nodup)
    (i : Nat) (hi : i < l.length) :
    getMask l (l.get ⟨i, hi⟩) = 2 ^ i := by
  unfold getMask
  have hfind : l.findIdx? (fun x => x == l.get ⟨i, hi⟩) = some i := by
    rw [List.findIdx?_eq_some_iff_getElem]
    refine ⟨hi, by simp, ?_⟩
    intro k hk
    simp only [List.get_eq_getElem, beq_iff_eq, Bool.not_eq_true]
    intro hkk
    exact absurd (h.getElem_inj_iff.1 hkk) (by omega)
  rw [hfind]
  exact Nat.one_shiftLeft i

theorem or_two_pow_sub_one (i : Nat) : (2 ^ i - 1) ||| 2 ^ i = 2 ^ (i + 1) - 1 := by
  apply Nat.eq_of_testBit_eq
  intro j
  simp only [Nat.testBit_or, Nat.testBit_two_pow_sub_one, Nat.testBit_two_pow]
  rw [Bool.eq_iff_iff]
  simp only [Bool.or_eq_true, decide_eq_true_eq]
  omega

theorem leftMaskUnion_eq (l : List Int) (h : l.Nodup)
    (i : Nat) (hi : i ≤ l.length) :
    leftMaskUnion l l i = 2 ^ i - 1 := by
  induction i with
  | zero => rfl
  | succ k ih =>
    have hk : k < l.length := by omega
    unfold leftMaskUnion at ih ⊢
    rw [← List.take_concat_get l k hk, List.concat_eq_append, List.foldl_append,
      ih (by omega), List.foldl_cons, List.foldl_nil]
    have hg : getMask l l[k] = 2 ^ k := getMask_get_of_nodup l h k hk
    rw [hg, or_two_pow_sub_one]

/-- C2: cursors interned in left-to-right FROM order give monotone masks:
the mask `M` of the entry in position `i` satisfies `M - 1 =` the union of
the masks of all entries to its left, and for `i < j` the left-mask of
position `i` is a strict subset of the left-mask of position `j`. -/
theorem claim_C2_cursor_mask_monotone (cursors : List Int)
    (hnd : cursors.Nodup) (i j : Nat)
    (hi : i < cursors.length) (hj : j < cursors.length) (hij : i < j) :
    (getMask (internFromClause cursors) (cursors.get ⟨i, hi⟩) - 1 =
       leftMaskUnion (internFromClause cursors) cursors i) ∧
    (getMask (internFromClause cursors) (cursors.get ⟨j, hj⟩) - 1 =
       leftMaskUnion (internFromClause cursors) cursors j) ∧
    ((getMask (internFromClause cursors) (cursors.get ⟨i, hi⟩) - 1) &&&
       (getMask (internFromClause cursors) (cursors.get ⟨j, hj⟩) - 1) =
       getMask (internFromClause cursors) (cursors.get ⟨i, hi⟩) - 1) ∧
    (getMask (internFromClause cursors) (cursors.get ⟨i, hi⟩) - 1 ≠
       getMask (internFromClause cursors) (cursors.get ⟨j, hj⟩) - 1) := by
  rw [internFromClause_eq]
  rw [getMask_get_of_nodup cursors hnd i hi, getMask_get_of_nodup cursors hnd j hj]
  refine ⟨(leftMaskUnion_eq cursors hnd i (by omega)).symm,
          (leftMaskUnion_eq cursors hnd j (by omega)).symm, ?_, ?_⟩
  · have hlt : 2 ^ i < 2 ^ j := Nat.pow_lt_pow_of_lt (by norm_num) hij
    have h1 : (1 : Nat) ≤ 2 ^ i := Nat.one_le_two_pow
    exact Nat.and_pow_two_sub_one_of_lt_two_pow (by omega)
  · have hlt : 2 ^ i < 2 ^ j := Nat.pow_lt_pow_of_lt (by norm_num) hij
    have h1 : (1 : Nat) ≤ 2 ^ i := Nat.one_le_two_pow
    omega

/-- Witness for C2 on the FROM cursor list `[3, 7, 5]` at positions 0 and 2. -/
theorem claim_C2_witness :
    getMask (internFromClause [3, 7, 5]) 3 - 1 =
      leftMaskUnion (internFromClause [3, 7, 5]) [3, 7, 5] 0 :=
  (claim_C2_cursor_mask_monotone [3, 7, 5] (by decide) 0 2
    (by decide) (by decide) (by decide)).1

/-- C1, counterexample: the pool `[E1, E2]` (reachable by two insertions
into an empty pool) with `E1 = {prereq 1, rRun 5}` and
`E2 = {prereq 2, rRun 3}`; inserting `C = {prereq 0, rRun 3}` overwrites
only `E1`, leaving `E2` in the pool even though `C` weakly dominates
`E2` — contradicting the claim that any existing loop weakly dominated by
`C` is overwritten by `C`. -/
theorem claim_C1_counterexample :
    whereLoopInsert
        (whereLoopInsert (whereLoopInsert [] ⟨0, 0, 1, 0, 5, 1, false, 0⟩)
          ⟨0, 0, 2, 0, 3, 1, false, 0⟩)
        ⟨0, 0, 0, 0, 3, 1, false, 0⟩ =
      [⟨0, 0, 0, 0, 3, 1, false, 0⟩, ⟨0, 0, 2, 0, 3, 1, false, 0⟩] ∧
    wlDominates ⟨0, 0, 0, 0, 3, 1, false, 0⟩ ⟨0, 0, 2, 0, 3, 1, false, 0⟩ ∧
    (⟨0, 0, 2, 0, 3, 1, false, 0⟩ : WLoop) ≠ ⟨0, 0, 0, 0, 3, 1, false, 0⟩ := by
  refine ⟨by decide, by decide, by decide⟩

/-- C1, amended: candidate insertion is decided by the first pool entry
related to the template by weak dominance.  If no existing loop dominates
the template and none is dominated by it, the template is appended.
Otherwise, at the first entry `p` (in pool order) with
`wlDominates p t ∨ wlDominates t p`: when `p` dominates `t` and the
longer-prefix exception does not apply, the template is discarded and the
pool is unchanged; in every other case (the template dominates `p`, or
`p` is a same-index shorter prefix with identical prereqs and no greater
cost) the template overwrites exactly that entry — later entries weakly
dominated by the template remain in the pool. -/
theorem claim_C1_weak_dominance_insertion (pool : List WLoop) (t : WLoop) :
    ((∀ p ∈ pool, ¬ wlDominates p t ∧ ¬ wlDominates t p) →
       whereLoopInsert pool t = pool ++ [t]) ∧
    (∀ (j : Nat) (p : WLoop), pool[j]? = some p →
       (wlDominates p t ∨ wlDominates t p) →
       (∀ (k : Nat) (q : WLoop), k < j → pool[k]? = some q →
          ¬ wlDominates q t ∧ ¬ wlDominates t q) →
       whereLoopInsert pool t =
         if wlDominates p t ∧ ¬ wlLongerPrefix p t then pool
         else pool.set j t) := by
  constructor
  · intro h
    induction pool with
    | nil => rfl
    | cons p rest ih =>
      have hp := h p (List.mem_cons_self p rest)
      simp only [whereLoopInsert]
      rw [if_neg hp.1, if_neg hp.2,
        ih (fun q hq => h q (List.mem_cons_of_mem p hq))]
      rfl
  · intro j
    induction pool generalizing j with
    | nil => intro p hp; simp at hp
    | cons p0 rest ih =>
      intro p hp hor hfirst
      cases j with
      | zero =>
        simp only [List.getElem?_cons_zero, Option.some_inj] at hp
        subst hp
        by_cases h1 : wlDominates p0 t
        · by_cases h2 : wlLongerPrefix p0 t
          · simp only [whereLoopInsert]
            rw [if_pos h1, if_pos h2, if_neg (by simp [h2])]
            rfl
          · simp only [whereLoopInsert]
            rw [if_pos h1, if_neg h2, if_pos ⟨h1, h2⟩]
        · have h3 : wlDominates t p0 := hor.resolve_left h1
          simp only [whereLoopInsert]
          rw [if_neg h1, if_pos h3, if_neg (fun hc => h1 hc.1)]
          rfl
      | succ k =>
        simp only [List.getElem?_cons_succ] at hp
        have h0 := hfirst 0 p0 (Nat.succ_pos k) (by simp)
        simp only [whereLoopInsert]
        rw [if_neg h0.1, if_neg h0.2]
        rw [ih k p hp hor
          (fun k2 q hk2 hq => hfirst (k2 + 1) q (by omega) (by simpa using hq))]
        by_cases hc : wlDominates p t ∧ ¬ wlLongerPrefix p t
        · rw [if_pos hc, if_pos hc]
        · rw [if_neg hc, if_neg hc]
          rfl

/-- Witness for C1: a one-element pool whose entry is dominated by the
template, which therefore overwrites it. -/
theorem claim_C1_witness :
    whereLoopInsert [⟨0, 0, 1, 0, 5, 1, false, 0⟩] ⟨0, 0, 0, 0, 3, 1, false, 0⟩ =
      [⟨0, 0, 0, 0, 3, 1, false, 0⟩] := by
  have h := (claim_C1_weak_dominance_insertion
      [⟨0, 0, 1, 0, 5, 1, false, 0⟩] ⟨0, 0, 0, 0, 3, 1, false, 0⟩).2 0
      ⟨0, 0, 1, 0, 5, 1, false, 0⟩ rfl (Or.inr (by decide))
      (fun k q hk _ => absurd hk (by omega))
  rw [if_neg (by decide)] at h
  exact h

/-- C4, counterexample: with capacity 5, a retained path
`T' = {mask 1, ORDER-BY NotSatisfied (valid, unordered), cost 50}` and a
new path `T = {mask 1, Satisfied (valid, ordered), cost 40}` have
different ORDER-BY statuses, so the claim requires `T` to be appended;
the code matches on `(maskLoop, isOrderedValid)` only and instead
replaces `T'`, leaving a single retained path. -/
theorem claim_C4_counterexample :
    (solverMerge 5 ([⟨1, true, false, 50, 0⟩], 0) ⟨1, true, true, 40, 0⟩).1 =
      [⟨1, true, true, 40, 0⟩] ∧
    (⟨1, true, false, 50, 0⟩ : SPath).isOrdered ≠
      (⟨1, true, true, 40, 0⟩ : SPath).isOrdered ∧
    ([⟨1, true, true, 40, 0⟩] : List SPath) ≠
      [⟨1, true, false, 50, 0⟩, ⟨1, true, true, 40, 0⟩] := by
  refine ⟨by decide, by decide, by decide⟩

/-- C4, amended: the solver retains at most `mxChoice` paths with
`mxChoice = 1`, `5`, `10` for one, two, and three or more tables; a new
path `T` replaces the first retained path `T'` with the same `maskLoop`
and the same `isOrderedValid` flag (Satisfied and NotSatisfied count
alike — only the known/unknown distinction matters) iff
`T.rCost < T'.rCost`; with no such `T'`, `T` is appended while capacity
remains, and once the set is full `T` is dropped iff `mxCost ≤ T.rCost`
and otherwise overwrites the slot found by the backward scan — the last
slot whose cost reaches `mxCost`. -/
theorem claim_C4_solver_merge :
    (mxChoice 1 = 1 ∧ mxChoice 2 = 5 ∧ ∀ n, 3 ≤ n → mxChoice n = 10) ∧
    (∀ (mxc : Nat) (aTo : List SPath) (mxCost : Nat) (t : SPath)
        (jj : Nat) (q : SPath), aTo[jj]? = some q →
      q.maskLoop = t.maskLoop → q.isOrderedValid = t.isOrderedValid →
      (∀ (k : Nat) (r : SPath), k < jj → aTo[k]? = some r →
        ¬ (r.maskLoop = t.maskLoop ∧ r.isOrderedValid = t.isOrderedValid)) →
      (solverMerge mxc (aTo, mxCost) t).1 =
        if t.rCost < q.rCost then aTo.set jj t else aTo) ∧
    (∀ (mxc : Nat) (aTo : List SPath) (mxCost : Nat) (t : SPath),
      (∀ r ∈ aTo,
        ¬ (r.maskLoop = t.maskLoop ∧ r.isOrderedValid = t.isOrderedValid)) →
      aTo.length < mxc →
      (solverMerge mxc (aTo, mxCost) t).1 = aTo ++ [t]) ∧
    (∀ (mxc : Nat) (aTo : List SPath) (mxCost : Nat) (t : SPath),
      (∀ r ∈ aTo,
        ¬ (r.maskLoop = t.maskLoop ∧ r.isOrderedValid = t.isOrderedValid)) →
      mxc ≤ aTo.length →
      (mxCost ≤ t.rCost → solverMerge mxc (aTo, mxCost) t = (aTo, mxCost)) ∧
      (t.rCost < mxCost → (solverMerge mxc (aTo, mxCost) t).1 =
        aTo.set (pathDispIdx aTo mxCost) t)) ∧
    (∀ (aTo : List SPath) (mxCost : Nat), (∃ r ∈ aTo, mxCost ≤ r.rCost) →
      pathDispIdx aTo mxCost < aTo.length ∧
      mxCost ≤ (aTo.getD (pathDispIdx aTo mxCost) default).rCost ∧
      ∀ k, pathDispIdx aTo mxCost < k → k < aTo.length →
        (aTo.getD k default).rCost < mxCost) := by
  refine ⟨⟨rfl, rfl, ?_⟩, ?_, ?_, ?_, ?_⟩
  · intro n hn
    unfold mxChoice
    rw [if_neg (by omega), if_neg (by omega)]
  · intro mxc aTo mxCost t jj q hq hmask hov hfirst
    have hjl : jj < aTo.length := by
      rcases List.getElem?_eq_some.1 hq with ⟨h, _⟩
      exact h
    have hget : aTo[jj] = q := by
      rcases List.getElem?_eq_some.1 hq with ⟨h, hh⟩
      exact hh
    have hfind : aTo.findIdx?
        (fun p => p.maskLoop == t.maskLoop && p.isOrderedValid == t.isOrderedValid)
        = some jj := by
      rw [List.findIdx?_eq_some_iff_getElem]
      refine ⟨hjl, by simp [hget, hmask, hov], ?_⟩
      intro k hk
      have hkl : k < aTo.length := Nat.lt_trans hk hjl
      have := hfirst k aTo[k] hk (by simp)
      simp only [Bool.not_eq_true, Bool.and_eq_false_iff, beq_eq_false_iff_ne, ne_eq]
      tauto
    have hgetD : aTo.getD jj default = q := by
      simp [List.getD_eq_getElem?_getD, hq]
    simp only [solverMerge, hfind]
    rw [hgetD]
    by_cases hc : q.rCost ≤ t.rCost
    · rw [if_pos hc, if_neg (show ¬ t.rCost < q.rCost by omega)]
    · rw [if_neg hc, if_pos (show t.rCost < q.rCost by omega)]
  · intro mxc aTo mxCost t hno hlen
    have hfind : aTo.findIdx?
        (fun p => p.maskLoop == t.maskLoop && p.isOrderedValid == t.isOrderedValid)
        = none := by
      rw [List.findIdx?_eq_none_iff]
      intro x hx
      have := hno x hx
      simp only [Bool.and_eq_false_iff, beq_eq_false_iff_ne, ne_eq]
      tauto
    simp only [solverMerge, hfind]
    rw [if_neg (show ¬ mxc ≤ aTo.length by omega)]
  · intro mxc aTo mxCost t hno hlen
    have hfind : aTo.findIdx?
        (fun p => p.maskLoop == t.maskLoop && p.isOrderedValid == t.isOrderedValid)
        = none := by
      rw [List.findIdx?_eq_none_iff]
      intro x hx
      have := hno x hx
      simp only [Bool.and_eq_false_iff, beq_eq_false_iff_ne, ne_eq]
      tauto
    constructor
    · intro hge
      simp only [solverMerge, hfind]
      rw [if_pos hlen, if_pos hge]
    · intro hlt
      simp only [solverMerge, hfind]
      rw [if_pos hlen, if_neg (show ¬ mxCost ≤ t.rCost by omega)]
  · intro aTo mxCost hex
    rcases hex with ⟨r, hr, hrc⟩
    have hsome : (aTo.reverse.findIdx? (fun p => mxCost ≤ p.rCost)).isSome := by
      rw [List.findIdx?_isSome, List.any_eq_true]
      exact ⟨r, List.mem_reverse.2 hr, by simpa⟩
    rcases Option.isSome_iff_exists.1 hsome with ⟨k, hk⟩
    rcases List.findIdx?_eq_some_iff_getElem.1 hk with ⟨hkl, hpk, hmin⟩
    have hklen : k < aTo.length := by simpa using hkl
    have hd : pathDispIdx aTo mxCost = aTo.length - 1 - k := by
      unfold pathDispIdx
      rw [hk]
    have hdl : pathDispIdx aTo mxCost < aTo.length := by omega
    refine ⟨hdl, ?_, ?_⟩
    · have hb1 : aTo.length - 1 - k < aTo.length := by omega
      have hrev : aTo.reverse[k] = aTo[aTo.length - 1 - k] := by
        simp
      rw [hd]
      rw [List.getD_eq_getElem?_getD, List.getElem?_eq_getElem (by omega : aTo.length - 1 - k < aTo.length)]
      rw [hrev] at hpk
      simpa using hpk
    · intro m hm hml
      rw [hd] at hm
      have hk2 : aTo.length - 1 - m < k := by omega
      have hk2l : aTo.length - 1 - m < aTo.reverse.length := by
        simp
        omega
      have := hmin (aTo.length - 1 - m) hk2
      have hrev : aTo.reverse[aTo.length - 1 - m] = aTo[m] := by
        simp
        congr 1
        omega
      rw [hrev] at this
      rw [List.getD_eq_getElem?_getD, List.getElem?_eq_getElem hml]
      simpa using this

/-- Witness for C4: replacement of a same-`(mask, isOrderedValid)` slot
by a cheaper path. -/
theorem claim_C4_witness :
    (solverMerge 10 ([⟨1, true, false, 50, 0⟩], 0) ⟨1, true, true, 40, 0⟩).1 =
      [⟨1, true, false, 50, 0⟩].set 0 ⟨1, true, true, 40, 0⟩ := by
  have h := claim_C4_solver_merge.2.1 10 [⟨1, true, false, 50, 0⟩] 0
      ⟨1, true, true, 40, 0⟩ 0 ⟨1, true, false, 50, 0⟩ (by simp) rfl rfl
      (fun k r hk _ => absurd hk (by omega))
  rw [if_pos (by decide)] at h
  exact h

theorem takeWhile_length_le {α : Type} (p : α → Bool) (l : List α) :
    (l.takeWhile p).length ≤ l.length := by
  induction l with
  | nil => simp
  | cons a tl ih =>
    rw [List.takeWhile_cons]
    by_cases h : p a
    · rw [if_pos h]
      simpa using ih
    · rw [if_neg h]
      simp

theorem take_getLastD (z : List Nat) (cnt : Nat) (h0 : 0 < cnt)
    (hle : cnt ≤ z.length) :
    (z.take cnt).getLastD 0 = z.getD (cnt - 1) 0 := by
  rw [List.getLastD_eq_getLast?, List.getLast?_eq_getElem?,
    List.getD_eq_getElem?_getD, List.length_take]
  rw [show min cnt z.length = cnt by omega]
  rw [List.getElem?_take_of_lt (by omega : cnt - 1 < cnt)]

/-- C6, counterexample: the NOCASE pattern `"B%"` (bytes `[66, 37]`) has
prefix `[66]`; the code folds the last byte to lowercase before
incrementing, producing the upper bound `[99]` (`"c"`), whereas the claim
("succ formed by incrementing the last prefix byte by one") would give
`[67]`. -/
theorem claim_C6_counterexample :
    likeRewrite ⟨true, true, 37, 95, 0, true, true, false, some [66, 37]⟩ =
      some (⟨true, [66], "NOCASE", TERM_VIRTUAL ||| TERM_DYNAMIC⟩,
            ⟨false, [99], "NOCASE", TERM_VIRTUAL ||| TERM_DYNAMIC⟩, true) ∧
    ([99] : List Nat) ≠ [66 + 1] := by
  constructor
  · rfl
  · decide

/-- C6, amended: when the pattern RHS is a known byte string whose
non-wildcard prefix is non-empty with last byte not 255, and the LHS is a
text-affinity column of a non-virtual table, the analyser appends the two
virtual terms `x >= prefix` and `x < succ` with the `BINARY` (or, for a
case-insensitive match, `NOCASE`) collation, where `succ` replaces the
last prefix byte `c` by `c + 1` — after first folding `c` to lowercase
when the match is case-insensitive; when the prefix is empty or its last
byte is 255 the rewrite does not apply and the original LIKE term is kept
unchanged. -/
theorem claim_C6_like_prefix_rewrite (inp : LikeInput) (z pre : List Nat)
    (hz : inp.rhsBytes = some z)
    (hfn : inp.isLikeFn = true) (hcol : inp.lhsIsColumn = true)
    (haff : inp.lhsTextAffinity = true) (hvt : inp.lhsTableVirtual = false)
    (hpre : pre = z.take (likePrefixLen inp.wc0 inp.wc1 inp.wc2 z)) :
    (pre ≠ [] → pre.getLastD 0 ≠ 255 →
      likeRewrite inp = some
        (⟨true, pre, if inp.noCase then "NOCASE" else "BINARY",
          TERM_VIRTUAL ||| TERM_DYNAMIC⟩,
         ⟨false, pre.dropLast ++
            [((if inp.noCase then upperToLower (pre.getLastD 0)
               else pre.getLastD 0) + 1) % 256],
          if inp.noCase then "NOCASE" else "BINARY",
          TERM_VIRTUAL ||| TERM_DYNAMIC⟩,
         if inp.noCase && pre.getLastD 0 == 64 then false
         else z.getD pre.length 0 == inp.wc0 && decide (pre.length + 1 = z.length))) ∧
    ((pre = [] ∨ pre.getLastD 0 = 255) → likeRewrite inp = none) := by
  have hcnt : likePrefixLen inp.wc0 inp.wc1 inp.wc2 z ≤ z.length :=
    takeWhile_length_le _ z
  have hplen : pre.length = likePrefixLen inp.wc0 inp.wc1 inp.wc2 z := by
    rw [hpre, List.length_take]
    omega
  constructor
  · intro h1 h2
    have h0 : 0 < likePrefixLen inp.wc0 inp.wc1 inp.wc2 z := by
      rcases Nat.eq_zero_or_pos (likePrefixLen inp.wc0 inp.wc1 inp.wc2 z) with h | h
      · exact absurd (by rw [hpre, h]; rfl) h1
      · exact h
    have hlast : pre.getLastD 0 =
        z.getD (likePrefixLen inp.wc0 inp.wc1 inp.wc2 z - 1) 0 := by
      rw [hpre]
      exact take_getLastD z _ h0 hcnt
    have hcond : (likePrefixLen inp.wc0 inp.wc1 inp.wc2 z != 0 &&
        z.getD (likePrefixLen inp.wc0 inp.wc1 inp.wc2 z - 1) 0 != 255) = true := by
      rw [← hlast]
      simp only [bne_iff_ne, ne_eq, Bool.and_eq_true]
      exact ⟨by simpa using Nat.pos_iff_ne_zero.1 h0, by simpa using h2⟩
    simp only [likeRewrite, isLikeOrGlobModel, hz, hfn, hcol, haff, hvt,
      Bool.not_true, Bool.and_true, Bool.true_and, Bool.not_false,
      Bool.false_eq_true, if_false, hcond, if_true]
    rw [← hpre, hlast, ← hplen]
  · intro h
    have hcond : (likePrefixLen inp.wc0 inp.wc1 inp.wc2 z != 0 &&
        z.getD (likePrefixLen inp.wc0 inp.wc1 inp.wc2 z - 1) 0 != 255) = false := by
      rcases h with h | h
      · have : likePrefixLen inp.wc0 inp.wc1 inp.wc2 z = 0 := by
          rw [← hplen, h]
          rfl
        simp [this]
      · rcases Nat.eq_zero_or_pos (likePrefixLen inp.wc0 inp.wc1 inp.wc2 z) with h0 | h0
        · simp [h0]
        · have hlast : pre.getLastD 0 =
              z.getD (likePrefixLen inp.wc0 inp.wc1 inp.wc2 z - 1) 0 := by
            rw [hpre]
            exact take_getLastD z _ h0 hcnt
          rw [← hlast, h]
          simp
    simp only [likeRewrite, isLikeOrGlobModel, hz, hfn, hcol, haff, hvt,
      Bool.not_true, Bool.and_true, Bool.true_and, Bool.not_false,
      Bool.false_eq_true, if_false, hcond]

/-- Witness for C6 on the case-sensitive pattern `"abc%"`. -/
theorem claim_C6_witness :
    likeRewrite ⟨true, false, 37, 95, 0, true, true, false, some [97, 98, 99, 37]⟩ =
      some (⟨true, [97, 98, 99], "BINARY", TERM_VIRTUAL ||| TERM_DYNAMIC⟩,
            ⟨false, [97, 98, 100], "BINARY", TERM_VIRTUAL ||| TERM_DYNAMIC⟩,
            true) := by
  have h := (claim_C6_like_prefix_rewrite
      ⟨true, false, 37, 95, 0, true, true, false, some [97, 98, 99, 37]⟩
      [97, 98, 99, 37] [97, 98, 99] rfl rfl rfl rfl rfl (by rfl)).1
      (by decide) (by decide)
  exact h.trans (by rfl)

theorem reachWithin_mono (terms : List ScanTerm) {n m : Nat} {p q : Int × Int}
    (hnm : n ≤ m) (h : reachWithin terms n p q) : reachWithin terms m p q := by
  induction m with
  | zero =>
    have hn : n = 0 := by omega
    subst hn
    exact h
  | succ k ih =>
    rcases Nat.lt_or_ge n (k + 1) with h1 | h1
    · exact Or.inl (ih (by omega))
    · have hn : n = k + 1 := by omega
      subst hn
      exact h

theorem scanAddEquiv_full (cur : Int × Int) (acc : List (Int × Int))
    (t : ScanTerm) (h : acc.length = 11) : scanAddEquiv cur acc t = acc := by
  unfold scanAddEquiv
  rw [if_neg]
  simp [h]

theorem scanReturns_lhs (opMask : Nat) (needColl : Bool)
    (start cur : Int × Int) (t : ScanTerm)
    (h : scanReturns opMask needColl start cur t = true) :
    t.leftCursor = cur.1 ∧ t.leftColumn = cur.2 := by
  unfold scanReturns at h
  simp only [Bool.and_eq_true, beq_iff_eq] at h
  exact ⟨h.1.1.1.1, h.1.1.1.2⟩

theorem scanAddEquiv_cases (cur : Int × Int) (acc : List (Int × Int))
    (t : ScanTerm) :
    scanAddEquiv cur acc t = acc ∨
    ∃ q, t.rhsColumn = some q ∧ q ∉ acc ∧ acc.length < 11 ∧
      t.leftCursor = cur.1 ∧ t.leftColumn = cur.2 ∧ t.eOp &&& WO_EQUIV ≠ 0 ∧
      scanAddEquiv cur acc t = acc ++ [q] := by
  unfold scanAddEquiv
  by_cases hg : (t.leftCursor == cur.1 && t.leftColumn == cur.2 &&
      t.eOp &&& WO_EQUIV != 0 && decide (acc.length < 11)) = true
  · rw [if_pos hg]
    simp only [Bool.and_eq_true, beq_iff_eq, bne_iff_ne, ne_eq,
      decide_eq_true_eq] at hg
    cases hr : t.rhsColumn with
    | none => exact Or.inl rfl
    | some q =>
      by_cases hq : q ∈ acc
      · refine Or.inl ?_
        show (if q ∈ acc then acc else acc ++ [q]) = acc
        rw [if_pos hq]
      · refine Or.inr ⟨q, rfl, hq, hg.2, hg.1.1.1, hg.1.1.2, hg.1.2, ?_⟩
        show (if q ∈ acc then acc else acc ++ [q]) = acc ++ [q]
        rw [if_neg hq]
  · rw [if_neg hg]
    exact Or.inl rfl

theorem scanStep_ret_true (opMask : Nat) (needColl : Bool)
    (start cur : Int × Int) (st : List (Int × Int) × List ScanTerm)
    (t : ScanTerm) (h : scanReturns opMask needColl start cur t = true) :
    scanStep opMask needColl start cur st t =
      (scanAddEquiv cur st.1 t, st.2 ++ [t]) := by
  unfold scanStep
  rw [if_pos h]

theorem scanStep_ret_false (opMask : Nat) (needColl : Bool)
    (start cur : Int × Int) (st : List (Int × Int) × List ScanTerm)
    (t : ScanTerm) (h : ¬ scanReturns opMask needColl start cur t = true) :
    scanStep opMask needColl start cur st t =
      (scanAddEquiv cur st.1 t, st.2) := by
  unfold scanStep
  rw [if_neg h]

theorem scanFold_inv (opMask : Nat) (needColl : Bool)
    (start cur : Int × Int) (terms : List ScanTerm) (i : Nat)
    (hreach : reachWithin terms i start cur) :
    ∀ (sub : List ScanTerm), (∀ t ∈ sub, t ∈ terms) →
    ∀ (acc : List (Int × Int)) (rets : List ScanTerm),
      acc.length ≤ 11 → i < acc.length →
      (∀ j, j < acc.length → reachWithin terms j start (acc.getD j (0, 0))) →
      ((sub.foldl (scanStep opMask needColl start cur) (acc, rets)).1.length ≤ 11 ∧
       acc.length ≤
        (sub.foldl (scanStep opMask needColl start cur) (acc, rets)).1.length ∧
       (∀ j, j < (sub.foldl (scanStep opMask needColl start cur) (acc, rets)).1.length →
          reachWithin terms j start
            ((sub.foldl (scanStep opMask needColl start cur) (acc, rets)).1.getD j (0, 0))) ∧
       (∀ t ∈ (sub.foldl (scanStep opMask needColl start cur) (acc, rets)).2,
          t ∈ rets ∨ (t.leftCursor = cur.1 ∧ t.leftColumn = cur.2))) := by
  intro sub
  induction sub with
  | nil =>
    intro _ acc rets hlen hi hinv
    exact ⟨hlen, Nat.le_refl _, hinv, fun t ht => Or.inl ht⟩
  | cons t sub ih =>
    intro hsub acc rets hlen hi hinv
    have hstep : (scanAddEquiv cur acc t).length ≤ 11 ∧
        acc.length ≤ (scanAddEquiv cur acc t).length ∧
        (∀ j, j < (scanAddEquiv cur acc t).length →
          reachWithin terms j start ((scanAddEquiv cur acc t).getD j (0, 0))) := by
      rcases scanAddEquiv_cases cur acc t with hca |
        ⟨q, hr, hq, hlt, hc1, hc2, hequiv, hca⟩
      · rw [hca]
        exact ⟨hlen, Nat.le_refl _, hinv⟩
      · rw [hca]
        refine ⟨by simp; omega, by simp, ?_⟩
        intro j hj
        rcases Nat.lt_or_ge j acc.length with hja | hja
        · have hje : (acc ++ [q]).getD j (0, 0) = acc.getD j (0, 0) := by
            simp [List.getD_eq_getElem?_getD, List.getElem?_append_left hja]
          rw [hje]
          exact hinv j hja
        · have hjl : j = acc.length := by
            simp at hj
            omega
          subst hjl
          have hje : (acc ++ [q]).getD acc.length (0, 0) = q := by
            simp [List.getD_eq_getElem?_getD,
              List.getElem?_append_right (Nat.le_refl acc.length)]
          rw [hje]
          refine reachWithin_mono terms (by omega : i + 1 ≤ acc.length)
            (Or.inr ⟨cur, hreach, ?_⟩)
          exact ⟨t, hsub t (List.mem_cons_self t sub), hequiv, hc1, hc2, hr⟩
    by_cases hret : scanReturns opMask needColl start cur t = true
    · rw [List.foldl_cons, scanStep_ret_true opMask needColl start cur _ t hret]
      dsimp only
      have hres := ih (fun u hu => hsub u (List.mem_cons_of_mem t hu))
        (scanAddEquiv cur acc t) (rets ++ [t]) hstep.1 (by omega) hstep.2.2
      refine ⟨hres.1, by omega, hres.2.2.1, ?_⟩
      intro u hu
      rcases hres.2.2.2 u hu with h | h
      · rcases List.mem_append.1 h with h | h
        · exact Or.inl h
        · have hut : u = t := by simpa using h
          subst hut
          exact Or.inr (scanReturns_lhs opMask needColl start cur u hret)
      · exact Or.inr h
    · rw [List.foldl_cons, scanStep_ret_false opMask needColl start cur _ t hret]
      dsimp only
      have hres := ih (fun u hu => hsub u (List.mem_cons_of_mem t hu))
        (scanAddEquiv cur acc t) rets hstep.1 (by omega) hstep.2.2
      exact ⟨hres.1, by omega, hres.2.2.1, hres.2.2.2⟩

theorem scanDrain_inv (opMask : Nat) (needColl : Bool) (start : Int × Int)
    (terms : List ScanTerm) :
    ∀ (fuel : Nat) (acc : List (Int × Int)) (i : Nat),
      acc.length ≤ 11 →
      (∀ j, j < acc.length → reachWithin terms j start (acc.getD j (0, 0))) →
      (scanDrain opMask needColl start terms fuel acc i).1.length ≤ 11 ∧
      (∀ t ∈ (scanDrain opMask needColl start terms fuel acc i).2,
        ∃ n, n ≤ 10 ∧ reachWithin terms n start (t.leftCursor, t.leftColumn)) := by
  intro fuel
  induction fuel with
  | zero =>
    intro acc i hlen hinv
    exact ⟨hlen, fun t ht => absurd ht (by simp [scanDrain])⟩
  | succ f ih =>
    intro acc i hlen hinv
    rw [scanDrain]
    match hget : acc.get? i with
    | none => exact ⟨hlen, fun t ht => absurd ht (by simp)⟩
    | some cur =>
      have hi : i < acc.length := by
        rcases List.get?_eq_some.1 hget with ⟨h, _⟩
        exact h
      have hcur : cur = acc.getD i (0, 0) := by
        rw [List.getD_eq_getElem?_getD, ← List.get?_eq_getElem?, hget]
        rfl
      have hreach : reachWithin terms i start cur := hcur ▸ hinv i hi
      have hfold := scanFold_inv opMask needColl start cur terms i hreach
        terms (fun t ht => ht) acc [] hlen hi hinv
      have hrest := ih (scanOnePair opMask needColl start cur terms acc).1 (i + 1)
        hfold.1 hfold.2.2.1
      refine ⟨hrest.1, ?_⟩
      intro t ht
      simp only at ht
      rcases List.mem_append.1 ht with h | h
      · rcases hfold.2.2.2 t h with h2 | h2
        · exact absurd h2 (List.not_mem_nil t)
        · refine ⟨i, by omega, ?_⟩
          rw [show (t.leftCursor, t.leftColumn) = cur from Prod.ext h2.1 h2.2]
          exact hreach
      · exact hrest.2 t h

/-- C8: the transitive-equality scan's working set `aEquiv` never holds
more than 11 `(cursor, column)` pairs (22 `int` slots) — the starting
pair plus at most 10 others; every term the drained scan returns has its
LHS reachable from the starting pair by a chain of at most 10 `Equiv`
equalities; and once the array is full a discovered equivalence is
silently dropped (`scanAddEquiv` leaves a full array unchanged). -/
theorem claim_C8_equiv_scan_capped (opMask : Nat) (needColl : Bool)
    (start : Int × Int) (terms : List ScanTerm) :
    (whereScanAll opMask needColl start terms).1.length ≤ 11 ∧
    (∀ t ∈ (whereScanAll opMask needColl start terms).2,
      ∃ n, n ≤ 10 ∧ reachWithin terms n start (t.leftCursor, t.leftColumn)) ∧
    (∀ (cur : Int × Int) (acc : List (Int × Int)) (t : ScanTerm),
      acc.length = 11 → scanAddEquiv cur acc t = acc) := by
  have hbase : ∀ j, j < ([start] : List (Int × Int)).length →
      reachWithin terms j start (([start] : List (Int × Int)).getD j (0, 0)) := by
    intro j hj
    have hj0 : j = 0 := by simpa using hj
    subst hj0
    rfl
  have h := scanDrain_inv opMask needColl start terms 11 [start] 0 (by simp) hbase
  exact ⟨h.1, h.2, fun cur acc t hf => scanAddEquiv_full cur acc t hf⟩


theorem orPrescanStep_eq_term (maskOf : Int → Nat) (all : List OrSub)
    (t : OrSub) (h1 : t.eOp = WO_EQ) (h2 : t.wtFlags &&& TERM_COPIED = 0)
    (h3 : t.wtFlags &&& TERM_VIRTUAL = 0) (x y : Nat) :
    orPrescanStep maskOf all (x, y) t =
      (x &&& maskOf t.leftCursor, y &&& maskOf t.leftCursor) := by
  unfold orPrescanStep
  rw [h1, h2, h3]
  rw [if_neg (by decide : ¬ (WO_EQ &&& WO_SINGLE == 0) = true)]
  rw [if_neg (by decide : ¬ ((0 : Nat) != 0) = true)]
  dsimp only
  rw [if_neg (by decide : ¬ ((0 : Nat) != 0) = true)]
  rw [if_neg (by decide : ¬ (WO_EQ &&& WO_EQ == 0) = true)]

theorem orPrescan_self (maskOf : Int → Nat) (all : List OrSub) (T : Int)
    (hm : maskOf T ≠ 0) :
    ∀ (sub : List OrSub),
      (∀ t ∈ sub, t.eOp = WO_EQ ∧ t.leftCursor = T ∧
        t.wtFlags &&& TERM_COPIED = 0 ∧ t.wtFlags &&& TERM_VIRTUAL = 0) →
      orPrescan maskOf all sub (maskOf T, maskOf T) = (maskOf T, maskOf T) := by
  intro sub
  induction sub with
  | nil => intro _; rfl
  | cons t rest ih =>
    intro hu
    have ht := hu t (List.mem_cons_self t rest)
    rw [orPrescan]
    rw [if_neg (by simpa using hm)]
    rw [orPrescanStep_eq_term maskOf all t ht.1 ht.2.2.1 ht.2.2.2, ht.2.1,
      Nat.and_self]
    exact ih (fun u hu2 => hu u (List.mem_cons_of_mem t hu2))

theorem orVerify_uniform (T C : Int) :
    ∀ (sub : List OrSub) (flags : List Bool) (k : Nat),
      (∀ t ∈ sub, t.leftCursor = T ∧ t.leftColumn = C ∧
        (t.affRight = 0 ∨ t.affRight = t.affLeft)) →
      flags.length = k + sub.length →
      (∀ j, j < k → flags.getD j false = true) →
      orVerify T C sub flags k = (true, List.replicate (k + sub.length) true) := by
  intro sub
  induction sub with
  | nil =>
    intro flags k _ hlen hpre
    have hlen2 : flags.length = k := by simpa using hlen
    have hflags : flags = List.replicate k true := by
      rw [List.eq_replicate_iff]
      refine ⟨hlen2, ?_⟩
      intro b hb
      rcases List.getElem_of_mem hb with ⟨i, hi, hib⟩
      have := hpre i (by omega)
      rw [List.getD_eq_getElem?_getD, List.getElem?_eq_getElem hi] at this
      simpa [hib] using this
    rw [orVerify, hflags]
    simp
  | cons t rest ih =>
    intro flags k hu hlen hpre
    have ht := hu t (List.mem_cons_self t rest)
    rw [orVerify]
    rw [if_neg (by simp [ht.1])]
    rw [if_neg (by simp [ht.2.1])]
    rw [if_neg (by rcases ht.2.2 with h | h <;> simp [h])]
    have hgoal := ih (flags.set k true) (k + 1)
      (fun u hu2 => hu u (List.mem_cons_of_mem t hu2))
      (by simp at hlen ⊢; omega)
      (by
        intro j hj
        rcases Nat.lt_or_ge j k with hjk | hjk
        · rw [List.getD_eq_getElem?_getD, List.getElem?_set_ne (by omega)]
          rw [← List.getD_eq_getElem?_getD]
          exact hpre j hjk
        · have hjk2 : j = k := by omega
          subst hjk2
          rw [List.getD_eq_getElem?_getD,
            List.getElem?_set_self (by simp at hlen ⊢; omega)]
          rfl)
    rw [hgoal]
    rw [show k + 1 + rest.length = k + (rest.length + 1) by omega]
    simp

theorem orFindCandidate_head (maskOf : Int → Nat) (chng : Nat) (t : OrSub)
    (rest : List OrSub) (flags : List Bool)
    (hT : ¬ t.leftCursor = -1) (hmask : ¬ maskOf t.leftCursor &&& chng = 0) :
    orFindCandidate maskOf chng (-1) (t :: rest) flags 0 =
      (some (0, flags.set 0 false), flags.set 0 false) := by
  rw [orFindCandidate]
  rw [if_neg (by simpa using hT)]
  rw [if_neg (by simpa using hmask)]

theorem zip_replicate_true_filterMap (ts : List OrSub) :
    ∀ n, ts.length ≤ n →
    (ts.zip (List.replicate n true)).filterMap
        (fun p => if p.2 then some p.1.rhsId else none) =
      ts.map (fun t => t.rhsId) := by
  induction ts with
  | nil => intro n _; simp
  | cons t rest ih =>
    intro n hn
    match n with
    | 0 => simp at hn
    | n + 1 =>
      simp only [List.replicate_succ, List.zip_cons_cons, List.filterMap_cons]
      simp [ih n (by simpa using hn)]

/-- C5: for an OR term all of whose sub-terms are equalities `T.C = e_i`
on the same table and column with compatible affinity (and the table
interned in the mask set), the analyser synthesises the single virtual
term `T.C IN (e_1, ..., e_n)` flagged `TERM_VIRTUAL|TERM_DYNAMIC`,
classified `WO_IN` by the re-invoked analysis, whose parent is the
original OR term with child count 1; the original term's operator is
demoted to `WO_NOOP`, superseding the indexed-OR case 2. -/
theorem claim_C5_or_to_in (maskOf : Int → Nat) (idxTerm : Nat)
    (ts : List OrSub) (T C : Int) (hT : 0 ≤ T) (hne : ts ≠ [])
    (hu : ∀ t ∈ ts, t.eOp = WO_EQ ∧ t.leftCursor = T ∧ t.leftColumn = C ∧
        t.wtFlags &&& TERM_COPIED = 0 ∧ t.wtFlags &&& TERM_VIRTUAL = 0 ∧
        (t.affRight = 0 ∨ t.affRight = t.affLeft))
    (hm : maskOf T ≠ 0) (hmlt : maskOf T < 2 ^ 64) :
    exprAnalyzeOrTermModel maskOf idxTerm ts =
      { indexable := maskOf T, origOp := WO_NOOP, origNChild := 1,
        inTerm := some
          { lhsCursor := T, lhsColumn := C,
            rhsIds := ts.map (fun t => t.rhsId),
            wtFlags := TERM_VIRTUAL ||| TERM_DYNAMIC,
            eOp := WO_IN, iParent := idxTerm } } := by
  match ts, hne with
  | t0 :: rest, _ =>
  have hu2 := hu
  have ht0 := hu t0 (List.mem_cons_self t0 rest)
  have hall : allBits &&& maskOf T = maskOf T := by
    unfold allBits
    rw [Nat.land_comm]
    exact Nat.and_pow_two_sub_one_of_lt_two_pow hmlt
  have hpre : orPrescan maskOf (t0 :: rest) (t0 :: rest) (allBits, allBits) =
      (maskOf T, maskOf T) := by
    rw [orPrescan]
    rw [if_neg (by unfold allBits; simp)]
    rw [orPrescanStep_eq_term maskOf (t0 :: rest) t0 ht0.1 ht0.2.2.2.1
      ht0.2.2.2.2.1, ht0.2.1, hall]
    exact orPrescan_self maskOf (t0 :: rest) T hm rest
      (fun u hu3 =>
        have h := hu u (List.mem_cons_of_mem t0 hu3)
        ⟨h.1, h.2.1, h.2.2.2.1, h.2.2.2.2.1⟩)
  have hflagslen :
      ((t0 :: rest).map (fun t => t.wtFlags &&& TERM_OR_OK != 0)).length =
        (t0 :: rest).length := by
    simp
  have hver := orVerify_uniform T C (t0 :: rest)
    (((t0 :: rest).map (fun t => t.wtFlags &&& TERM_OR_OK != 0)).set 0 false) 0
    (fun u hu3 =>
      have h := hu u hu3
      ⟨h.2.1, h.2.2.1, h.2.2.2.2.2⟩)
    (by simp)
    (fun j hj => absurd hj (by omega))
  have hTne : ¬ t0.leftCursor = -1 := by
    rw [ht0.2.1]
    omega
  rw [Nat.zero_add] at hver
  have hsearch : orSearch maskOf (maskOf T) (t0 :: rest) =
      some (T, C, List.replicate (t0 :: rest).length true) := by
    unfold orSearch orAttempt
    dsimp only
    rw [orFindCandidate_head maskOf (maskOf T) t0 rest _ hTne
      (by rw [ht0.2.1, Nat.and_self]; exact hm)]
    dsimp only
    rw [List.getD_cons_zero, List.drop_zero, ht0.2.1, ht0.2.2.1, hver]
    dsimp only
    rw [if_pos rfl]
  unfold exprAnalyzeOrTermModel
  rw [hpre]
  dsimp only
  rw [if_pos (by simpa using hm), hsearch]
  dsimp only
  rw [zip_replicate_true_filterMap (t0 :: rest) (t0 :: rest).length
    (Nat.le_refl _)]

/-- Witness for C5: the OR of two equalities on column 1 of cursor 5. -/
theorem claim_C5_witness :
    exprAnalyzeOrTermModel (fun c => if c == 5 then 2 else 0) 7
      [⟨WO_EQ, 5, 1, 0, 0, 0, 0, 100, 0⟩, ⟨WO_EQ, 5, 1, 0, 0, 0, 0, 101, 0⟩] =
      { indexable := 2, origOp := WO_NOOP, origNChild := 1,
        inTerm := some
          { lhsCursor := 5, lhsColumn := 1, rhsIds := [100, 101],
            wtFlags := TERM_VIRTUAL ||| TERM_DYNAMIC,
            eOp := WO_IN, iParent := 7 } } :=
  claim_C5_or_to_in (fun c => if c == 5 then 2 else 0) 7
    [⟨WO_EQ, 5, 1, 0, 0, 0, 0, 100, 0⟩, ⟨WO_EQ, 5, 1, 0, 0, 0, 0, 101, 0⟩]
    5 1 (by decide) (by decide) (by decide) (by decide) (by decide)

end SQLite4Where
